import Mathlib

/-!
Verification development for the krypto-web backend core
(trading engine, portfolio manager, strategy generator).

The Rust services are shallowly embedded:
f64 values become exact rationals, chrono timestamps become integer
milliseconds (seconds for the portfolio walk), Uuid keys become naturals,
and each SQL statement becomes an explicit operation on an in-memory
database value.  A transaction is a list of operations applied atomically:
an injected failure index models a database error on one statement and
makes the transaction roll back.
-/

/-- Timestamps, as an absolute integer count of milliseconds
(chrono DateTime of Utc in the source). -/
abbrev Time := Int

/-- One row of the sessions table (models/strategy.rs, struct Session),
restricted to the columns the engine reads and writes. -/
structure Session where
  id : Nat
  symbol : String
  currentEquity : ℚ
  entryEquity : Option ℚ
  currentPosition : ℚ
  entryPrice : Option ℚ
  executionMode : String
  lastUpdate : Time
deriving DecidableEq

/-- One row of the trades table, as inserted by execute_paper_trade. -/
structure Trade where
  sessionId : Nat
  symbol : String
  side : String
  price : ℚ
  quantity : ℚ
  pnl : ℚ
  reason : String
deriving DecidableEq

/-- One row of the equity_snapshots table. -/
structure Snapshot where
  sessionId : Nat
  equity : ℚ
  timestamp : Time
deriving DecidableEq

/-- The database tables touched by the trading engine. -/
structure Db where
  sessions : List Session
  trades : List Trade
  snapshots : List Snapshot
deriving DecidableEq

/-- The in-memory snapshot_tracker (HashMap of Uuid to DateTime). -/
abbrev Tracker := List (Nat × Time)

/-- Lookup in the snapshot tracker. -/
def trackerLookup (t : Tracker) (sid : Nat) : Option Time :=
  match t with
  | [] => none
  | (k, v) :: rest => if k = sid then some v else trackerLookup rest sid

/-- Insert or overwrite an entry of the snapshot tracker. -/
def trackerInsert (t : Tracker) (sid : Nat) (v : Time) : Tracker :=
  match t with
  | [] => [(sid, v)]
  | (k, w) :: rest =>
      if k = sid then (k, v) :: rest else (k, w) :: trackerInsert rest sid v

/-- A single SQL write statement issued by the engine. -/
inductive DbOp where
  | insertTrade (t : Trade)
  | updateSessionMtm (sid : Nat) (equity : ℚ) (now : Time)
  | updateSessionTrade (sid : Nat) (equity newPos : ℚ)
      (newEntryPrice newEntryEquity : Option ℚ) (now : Time)
  | insertSnapshot (s : Snapshot)
deriving DecidableEq

/-- Apply the row update of an UPDATE sessions statement to the matching rows. -/
def updateRows (l : List Session) (sid : Nat) (f : Session → Session) : List Session :=
  l.map fun s => if s.id = sid then f s else s

/-- The effect of one SQL write statement on the database. -/
def applyOp (db : Db) : DbOp → Db
  | .insertTrade t => { db with trades := db.trades ++ [t] }
  | .updateSessionMtm sid e now =>
      { db with sessions :=
          updateRows db.sessions sid fun s =>
            { s with currentEquity := e, lastUpdate := now } }
  | .updateSessionTrade sid e newPos nep nee now =>
      { db with sessions :=
          updateRows db.sessions sid fun s =>
            { s with currentEquity := e, currentPosition := newPos,
                     entryPrice := nep, entryEquity := nee, lastUpdate := now } }
  | .insertSnapshot sn => { db with snapshots := db.snapshots ++ [sn] }

/-- Run a list of statements as one transaction.  failAt injects a database
error on the statement with that index; an error rolls the whole
transaction back, leaving the database unchanged. -/
def runTx (failAt : Option Nat) (ops : List DbOp) (db : Db) : Db × Bool :=
  match failAt with
  | some i => if i < ops.length then (db, false) else (ops.foldl applyOp db, true)
  | none => (ops.foldl applyOp db, true)

/-- Outcome of one engine call: the database after the call, the in-memory
snapshot tracker after the call, and whether the call returned Ok. -/
structure EngineStep where
  db : Db
  tracker : Tracker
  ok : Bool
deriving DecidableEq

/-- SELECT of a session row by id (first matching row). -/
def findSession (l : List Session) (sid : Nat) : Option Session :=
  match l with
  | [] => none
  | s :: rest => if s.id = sid then some s else findSession rest sid

/-- The f64 machine epsilon used by the zero-position guard. -/
def f64Epsilon : ℚ := 1 / 2 ^ 52

/-- SNAPSHOT_COOLDOWN_MS from trading_engine.rs. -/
def snapshotCooldownMs : Int := 1000

/-- The mark-to-market / settlement formula shared by update_equity_mtm and
the closing leg of execute_paper_trade: basis times one plus the signed
price move relative to the entry price. -/
def settledEquity (session : Session) (price : ℚ) : ℚ :=
  let entryPrice := session.entryPrice.getD price
  let basisEquity := session.entryEquity.getD session.currentEquity
  let direction : ℚ := if 0 < session.currentPosition then 1 else -1
  basisEquity * (1 + direction * (price - entryPrice) / entryPrice)

/-- The snapshot rate limit of update_equity_mtm: allow a snapshot when
forced, when the session has no recorded snapshot time, or when the last
recorded snapshot is at least SNAPSHOT_COOLDOWN_MS old. -/
def allowSnapshotFlag (tracker : Tracker) (sid : Nat) (now : Time)
    (force : Bool) : Bool :=
  force ||
    (match trackerLookup tracker sid with
     | some ts => decide (snapshotCooldownMs ≤ now - ts)
     | none => true)

/-- The statements of the update_equity_mtm transaction: the session row
update and, when the rate limit allows, the snapshot insert. -/
def mtmOps (sid : Nat) (mtm : ℚ) (now : Time) (allowSnapshot : Bool) : List DbOp :=
  DbOp.updateSessionMtm sid mtm now ::
    (if allowSnapshot then [DbOp.insertSnapshot ⟨sid, mtm, now⟩] else [])

/-- Embedding of update_equity_mtm (trading_engine.rs lines 146-206). -/
def updateEquityMtm (db : Db) (session : Session) (currentPrice : ℚ)
    (tracker : Tracker) (forceSnapshot : Bool) (now : Time)
    (failAt : Option Nat) : EngineStep :=
  if |session.currentPosition| < f64Epsilon ∨ session.entryPrice = none then
    ⟨db, tracker, true⟩
  else
    let mtmEquity := settledEquity session currentPrice
    let timeSinceUpdate := now - session.lastUpdate
    let equityMove := |mtmEquity - session.currentEquity|
    if forceSnapshot = true ∨ (1 / 1000000 < equityMove ∧ 500 ≤ timeSinceUpdate) then
      let allowSnapshot := allowSnapshotFlag tracker session.id now forceSnapshot
      match runTx failAt (mtmOps session.id mtmEquity now allowSnapshot) db with
      | (db2, true) =>
          ⟨db2, if allowSnapshot then trackerInsert tracker session.id now else tracker, true⟩
      | (db2, false) => ⟨db2, tracker, false⟩
    else
      ⟨db, tracker, true⟩

/-- Profit of the closing leg: settled equity minus the entry basis. -/
def closePnl (session : Session) (price : ℚ) : ℚ :=
  settledEquity session price - session.entryEquity.getD session.currentEquity

/-- Equity carried into the session update of execute_paper_trade: the
settled equity when a position is being closed, otherwise unchanged. -/
def paperTradeNewEquity (session : Session) (price : ℚ) : ℚ :=
  if 0 < |session.currentPosition| then settledEquity session price
  else session.currentEquity

/-- Side of the closing trade. -/
def closeSide (session : Session) : String :=
  if 0 < session.currentPosition then "SELL" else "BUY"

/-- Side of the opening trade. -/
def openSide (signal : ℚ) : String :=
  if 0 < signal then "BUY" else "SELL"

/-- The statements issued inside the single transaction of
execute_paper_trade (trading_engine.rs lines 404-487): optional closing
trade insert, optional opening trade insert, session row update,
equity snapshot insert. -/
def paperTradeOps (session : Session) (signal price : ℚ) (reason : String)
    (now : Time) : List DbOp :=
  let closing : List DbOp :=
    if 0 < |session.currentPosition| then
      [DbOp.insertTrade
        ⟨session.id, session.symbol, closeSide session, price, 0,
          closePnl session price, reason⟩]
    else []
  let opening : List DbOp :=
    if 0 < |signal| then
      [DbOp.insertTrade
        ⟨session.id, session.symbol, openSide signal, price, 0, 0, reason⟩]
    else []
  let newEquity := paperTradeNewEquity session price
  closing ++ opening ++
    [DbOp.updateSessionTrade session.id newEquity signal
       (if 0 < |signal| then some price else none)
       (if 0 < |signal| then some newEquity else none) now,
     DbOp.insertSnapshot ⟨session.id, newEquity, now⟩]

/-- Embedding of execute_paper_trade (trading_engine.rs lines 385-489).
When the signal differs from the position by less than 0.1 it short
circuits to the mark-to-market update; otherwise it runs the four write
statements of paperTradeOps in one transaction and records the snapshot
time in the tracker after the commit. -/
def executePaperTrade (db : Db) (session : Session) (signal price : ℚ)
    (reason : String) (tracker : Tracker) (now : Time)
    (failAt : Option Nat) : EngineStep :=
  if |signal - session.currentPosition| < 1 / 10 then
    updateEquityMtm db session price tracker false now failAt
  else
    match runTx failAt (paperTradeOps session signal price reason now) db with
    | (db2, true) => ⟨db2, trackerInsert tracker session.id now, true⟩
    | (db2, false) => ⟨db2, tracker, false⟩

/-- Control-flow model of the per-event session loop of
process_symbol_update (trading_engine.rs lines 135-143).  evalSession
abstracts the body run for one session (update_equity_mtm and, on a final
bar, run_strategy_logic), both of which propagate errors with the question
mark operator.  The result pairs the value the function returns with the
list of session ids whose evaluation was attempted. -/
def processSymbolUpdate (evalSession : Nat → Except Unit Unit) :
    List Nat → Except Unit Unit × List Nat
  | [] => (Except.ok (), [])
  | s :: rest =>
    match evalSession s with
    | Except.error e => (Except.error e, [s])
    | Except.ok _ =>
        let r := processSymbolUpdate evalSession rest
        (r.1, s :: r.2)

/-- Control-flow model of the event select loop of run_engine_cycle
(trading_engine.rs lines 63-92): each kline event is handed to
process_symbol_update, an error is logged and swallowed, and the loop
continues with the next event.  Returns, per event, the session ids that
were evaluated. -/
def runEngineCycleEvents (evalSession : Nat → Except Unit Unit)
    (events : List (List Nat)) : List (List Nat) :=
  events.map fun sessions => (processSymbolUpdate evalSession sessions).2

/-- One row of the equity_snapshots table as read by the portfolio
manager; timestamps here are in whole seconds so that truncation to the
minute is meaningful. -/
structure SnapshotRow where
  sessionId : Nat
  equity : ℚ
  timestamp : Int
deriving DecidableEq

/-- The current_equities map of update_cache, as an association list. -/
abbrev Equities := List (Nat × ℚ)

/-- HashMap insert: overwrite the entry for the session if present. -/
def eqInsert (m : Equities) (sid : Nat) (v : ℚ) : Equities :=
  match m with
  | [] => [(sid, v)]
  | (k, w) :: rest => if k = sid then (k, v) :: rest else (k, w) :: eqInsert rest sid v

/-- Sum of the equities currently in the map. -/
def eqTotal (m : Equities) : ℚ :=
  match m with
  | [] => 0
  | (_, v) :: rest => v + eqTotal rest

/-- The inner while loop of update_cache: consume every leading snapshot
with timestamp at most curr into the map, overwriting per session. -/
def consumeSnaps (curr : Int) : List SnapshotRow → Equities →
    List SnapshotRow × Equities
  | [], m => ([], m)
  | s :: rest, m =>
    if s.timestamp ≤ curr then consumeSnaps curr rest (eqInsert m s.sessionId s.equity)
    else (s :: rest, m)

/-- The outer while loop of update_cache (portfolio_manager.rs lines
63-77), with the number of remaining one-minute steps made explicit:
at each minute consume the due snapshots, then emit the total exactly
when it is positive. -/
def walkLoop : List SnapshotRow → Equities → Int → Nat → List (Int × ℚ)
  | _, _, _, 0 => []
  | snaps, m, curr, n + 1 =>
    let step := consumeSnaps curr snaps m
    let total := eqTotal step.2
    (if 0 < total then [(curr, total)] else []) ++
      walkLoop step.1 step.2 (curr + 60) n

/-- The loop state of walkLoop after a number of minutes: remaining
snapshots, the equity map, and the current minute. -/
def walkState : List SnapshotRow → Equities → Int → Nat →
    List SnapshotRow × Equities × Int
  | snaps, m, curr, 0 => (snaps, m, curr)
  | snaps, m, curr, n + 1 =>
    let step := consumeSnaps curr snaps m
    walkState step.1 step.2 (curr + 60) n

/-- The points emitted by one iteration of walkLoop from a given state. -/
def emitStep : List SnapshotRow × Equities × Int → List (Int × ℚ)
  | (snaps, m, curr) =>
    let step := consumeSnaps curr snaps m
    let total := eqTotal step.2
    if 0 < total then [(curr, total)] else []

/-- Truncation of a timestamp to the start of its minute
(with_second(0).with_nanosecond(0) in the source). -/
def truncMinute (t : Int) : Int := 60 * (t / 60)

/-- The cache points computed by update_cache from the snapshot table,
walking minute by minute from the first snapshot's truncated timestamp
up to now. -/
def cachePoints (snaps : List SnapshotRow) (nowT : Int) : List (Int × ℚ) :=
  match snaps with
  | [] => []
  | first :: _ =>
    let startT := truncMinute first.timestamp
    let steps := if startT ≤ nowT then ((nowT - startT) / 60).toNat + 1 else 0
    walkLoop snaps [] startT steps

/-- Result of one update_cache run: the portfolio_cache table after the
run, whether the table was truncated, and whether the run returned Ok. -/
structure CacheRun where
  cache : List (Int × ℚ)
  truncated : Bool
  ok : Bool
deriving DecidableEq

/-- Embedding of update_cache (portfolio_manager.rs lines 42-104).  An
empty snapshot table or an empty point list returns before any write; the
truncate and the chunked inserts form one transaction whose success is
modeled by txOk (failure rolls back, leaving the old cache rows). -/
def updateCache (snaps : List SnapshotRow) (nowT : Int)
    (oldCache : List (Int × ℚ)) (txOk : Bool) : CacheRun :=
  if snaps.isEmpty then ⟨oldCache, false, true⟩
  else
    let pts := cachePoints snaps nowT
    if pts.isEmpty then ⟨oldCache, false, true⟩
    else if txOk then ⟨pts, true, true⟩
    else ⟨oldCache, false, false⟩

/-- The backtest metrics of one optimized candidate
(krypto BacktestResult, the fields the generator reads). -/
structure BacktestResult where
  sharpe : ℚ
  totalReturnPct : ℚ
  totalTrades : Nat
deriving DecidableEq

/-- Embedding of StrategyGenerator.evaluate_type (strategy_generator.rs
lines 205-236): given the optimizer's best result for one strategy type
on one cell, push a candidate exactly when it has more than 10 trades and
a positive total return. -/
def evaluateType (best : Option BacktestResult)
    (candidates : List BacktestResult) : List BacktestResult :=
  match best with
  | some res =>
      if 10 < res.totalTrades ∧ 0 < res.totalReturnPct then candidates ++ [res]
      else candidates
  | none => candidates

/-- The candidate list collected over all cells and strategy types of a
generator run; each entry of results is one optimizer outcome. -/
def collectCandidates (results : List (Option BacktestResult)) : List BacktestResult :=
  results.foldl (fun acc r => evaluateType r acc) []

/-- Insertion into a list kept sorted by descending sharpe ratio. -/
def insertDesc (r : BacktestResult) : List BacktestResult → List BacktestResult
  | [] => [r]
  | x :: xs => if x.sharpe ≤ r.sharpe then r :: x :: xs else x :: insertDesc r xs

/-- The sort_by of generate_and_save: candidates ordered by descending
sharpe ratio. -/
def sortBySharpeDesc (l : List BacktestResult) : List BacktestResult :=
  l.foldr insertDesc []

/-- Embedding of the persistence tail of generate_and_save
(strategy_generator.rs lines 149-202) in a run where every insert
succeeds: sort the candidates by descending sharpe, take the first top_n,
insert one strategy row for each, and return the number inserted. -/
def generateAndSave (results : List (Option BacktestResult)) (topN : Nat) : Nat :=
  ((sortBySharpeDesc (collectCandidates results)).take topN).length

/-- The step_by iterator of Rust: starting with a skip budget, keep an
element when the budget is zero (resetting it to step minus one) and skip
it otherwise. -/
def stepByCount (step : Nat) : Nat → List ℚ → List ℚ
  | _, [] => []
  | 0, x :: xs => x :: stepByCount step (step - 1) xs
  | n + 1, _ :: xs => stepByCount step n xs

/-- Embedding of the curve downsampling of generate_and_save
(strategy_generator.rs lines 168-175): step is max(len / 50, 1), take
every step-th point, then append the final value when it is not already
the last point kept. -/
def downsampleCurve (curve : List ℚ) : List ℚ :=
  let step := max (curve.length / 50) 1
  let downsampled := stepByCount step 0 curve
  match curve.getLast? with
  | some lastV =>
      if downsampled.getLast? ≠ some lastV then downsampled ++ [lastV]
      else downsampled
  | none => downsampled

/-- Updating rows by id commutes with looking a session up by that id,
provided the update preserves the id column. -/
theorem findSession_updateRows (l : List Session) (sid : Nat) (f : Session → Session)
    (hf : ∀ s, (f s).id = s.id) :
    findSession (updateRows l sid f) sid = (findSession l sid).map f := by
  induction l with
  | nil => simp [findSession, updateRows]
  | cons s rest ih =>
    by_cases h : s.id = sid
    · simp [updateRows, findSession, h, hf s]
    · simp [updateRows, findSession, h] at ih ⊢
      exact ih

/-- A transaction either applies all its statements or none. -/
theorem runTx_cases (failAt : Option Nat) (ops : List DbOp) (db : Db) :
    runTx failAt ops db = (ops.foldl applyOp db, true) ∨
      runTx failAt ops db = (db, false) := by
  unfold runTx
  cases failAt with
  | none => exact Or.inl rfl
  | some i =>
    by_cases h : i < ops.length
    · simp [h]
    · simp [h]

/-- The sessions table after applying the execute_paper_trade transaction:
the matching row gets the new equity, the new position and the new entry
columns; other rows are untouched. -/
theorem paperTradeOps_sessions (db : Db) (session : Session) (signal price : ℚ)
    (reason : String) (now : Time) :
    ((paperTradeOps session signal price reason now).foldl applyOp db).sessions =
      updateRows db.sessions session.id fun s =>
        { s with currentEquity := paperTradeNewEquity session price,
                 currentPosition := signal,
                 entryPrice := if 0 < |signal| then some price else none,
                 entryEquity :=
                   if 0 < |signal| then some (paperTradeNewEquity session price) else none,
                 lastUpdate := now } := by
  unfold paperTradeOps
  by_cases h1 : 0 < |session.currentPosition| <;> by_cases h2 : 0 < |signal| <;>
    simp [h1, h2, applyOp]

/-- The trades table after applying the execute_paper_trade transaction:
the optional closing trade then the optional opening trade are appended. -/
theorem paperTradeOps_trades (db : Db) (session : Session) (signal price : ℚ)
    (reason : String) (now : Time) :
    ((paperTradeOps session signal price reason now).foldl applyOp db).trades =
      db.trades ++
        (if 0 < |session.currentPosition| then
          [⟨session.id, session.symbol, closeSide session, price, 0,
             closePnl session price, reason⟩]
         else []) ++
        (if 0 < |signal| then
          [⟨session.id, session.symbol, openSide signal, price, 0, 0, reason⟩]
         else []) := by
  unfold paperTradeOps
  by_cases h1 : 0 < |session.currentPosition| <;> by_cases h2 : 0 < |signal| <;>
    simp [h1, h2, applyOp]

/-- The snapshots table after applying the execute_paper_trade
transaction: exactly one snapshot at the new equity is appended. -/
theorem paperTradeOps_snapshots (db : Db) (session : Session) (signal price : ℚ)
    (reason : String) (now : Time) :
    ((paperTradeOps session signal price reason now).foldl applyOp db).snapshots =
      db.snapshots ++ [⟨session.id, paperTradeNewEquity session price, now⟩] := by
  unfold paperTradeOps
  by_cases h1 : 0 < |session.currentPosition| <;> by_cases h2 : 0 < |signal| <;>
    simp [h1, h2, applyOp]

/-- update_equity_mtm either leaves the sessions table unchanged or
rewrites only the equity and last_update columns of the matching row. -/
theorem updateEquityMtm_sessions (db : Db) (session : Session) (currentPrice : ℚ)
    (tracker : Tracker) (force : Bool) (now : Time) (failAt : Option Nat) :
    (updateEquityMtm db session currentPrice tracker force now failAt).db.sessions =
        db.sessions ∨
      (updateEquityMtm db session currentPrice tracker force now failAt).db.sessions =
        updateRows db.sessions session.id fun s =>
          { s with currentEquity := settledEquity session currentPrice,
                   lastUpdate := now } := by
  unfold updateEquityMtm
  by_cases hg : |session.currentPosition| < f64Epsilon ∨ session.entryPrice = none
  · simp [hg]
  · simp only [hg, if_false]
    by_cases hc : force = true ∨
        (1 / 1000000 < |settledEquity session currentPrice - session.currentEquity| ∧
          500 ≤ now - session.lastUpdate)
    · simp only [hc, if_true]
      rcases runTx_cases failAt
          (mtmOps session.id (settledEquity session currentPrice) now
            (allowSnapshotFlag tracker session.id now force)) db with h | h
      · rw [h]
        right
        cases hA : allowSnapshotFlag tracker session.id now force <;>
          simp [mtmOps, hA, applyOp]
      · rw [h]
        left
        rfl
    · rw [if_neg hc]
      left
      rfl

/-- C9: for every kline event, update_equity_mtm performs no database
write at all and returns Ok whenever the session's entry_price is null,
even if the position is nonzero; the guard short-circuits before the
mark-to-market formula, so the division by entry_price is only evaluated
with entry_price set. -/
theorem mtm_no_entry_price_noop (db : Db) (session : Session) (price : ℚ)
    (tracker : Tracker) (force : Bool) (now : Time) (failAt : Option Nat)
    (h : session.entryPrice = none) :
    updateEquityMtm db session price tracker force now failAt =
      ⟨db, tracker, true⟩ := by
  simp [updateEquityMtm, h]

/-- A session with a nonzero position and no entry price, for exercising
the update_equity_mtm guard. -/
def sessionNoEntry : Session := ⟨7, "BTCUSDT", 1000, none, 1, none, "sync", 0⟩

/-- Witness for mtm_no_entry_price_noop at a concrete session. -/
theorem mtm_no_entry_price_noop_witness :
    sessionNoEntry.entryPrice = none ∧
      updateEquityMtm ⟨[sessionNoEntry], [], []⟩ sessionNoEntry 42 [] false 0 none =
        ⟨⟨[sessionNoEntry], [], []⟩, [], true⟩ :=
  ⟨rfl, mtm_no_entry_price_noop ⟨[sessionNoEntry], [], []⟩ sessionNoEntry 42 [] false 0 none rfl⟩

/-- The session evaluator of the C4 scenario: evaluating session 1 raises
a strategy error, every other session evaluates cleanly. -/
def evalFailOn1 (s : Nat) : Except Unit Unit :=
  if s = 1 then Except.error () else Except.ok ()

/-- C4 fails on the code: with two active sessions for one kline event
where the first raises a strategy error, the second session is never
evaluated, because process_symbol_update propagates the error out of the
session loop with the question mark operator. -/
theorem session_error_stops_event_cex :
    ¬ (2 ∈ (processSymbolUpdate evalFailOn1 [1, 2]).2) := by
  decide

/-- C4 amended: a feature or strategy error raised while evaluating one
session aborts the remaining sessions of that kline event, which are
skipped; the error is propagated to run_engine_cycle's event arm, which
logs it and continues with the subsequent events. -/
theorem session_error_event_boundary (evalSession : Nat → Except Unit Unit)
    (pre : List Nat) (bad : Nat) (post : List Nat) (events : List (List Nat))
    (hpre : ∀ s ∈ pre, evalSession s = Except.ok ())
    (hbad : evalSession bad = Except.error ()) :
    processSymbolUpdate evalSession (pre ++ bad :: post) =
        (Except.error (), pre ++ [bad]) ∧
      runEngineCycleEvents evalSession ((pre ++ bad :: post) :: events) =
        (pre ++ [bad]) :: runEngineCycleEvents evalSession events := by
  have h1 : processSymbolUpdate evalSession (pre ++ bad :: post) =
      (Except.error (), pre ++ [bad]) := by
    induction pre with
    | nil => simp [processSymbolUpdate, hbad]
    | cons p ps ih =>
      have hp : evalSession p = Except.ok () := hpre p (by simp)
      have hrest := ih fun s hs => hpre s (by simp [hs])
      simp [processSymbolUpdate, hp, hrest]
  exact ⟨h1, by simp [runEngineCycleEvents, h1]⟩

/-- Witness for session_error_event_boundary at a concrete event list. -/
theorem session_error_event_boundary_witness :
    (∀ s ∈ [0], evalFailOn1 s = Except.ok ()) ∧
      evalFailOn1 1 = Except.error () ∧
      (processSymbolUpdate evalFailOn1 ([0] ++ 1 :: [2]) =
          (Except.error (), [0] ++ [1]) ∧
        runEngineCycleEvents evalFailOn1 (([0] ++ 1 :: [2]) :: [[2]]) =
          ([0] ++ [1]) :: runEngineCycleEvents evalFailOn1 [[2]]) :=
  ⟨by simp [evalFailOn1], rfl,
    session_error_event_boundary evalFailOn1 [0] 1 [2] [[2]] (by simp [evalFailOn1]) rfl⟩

/-- C10: update_cache returns success without truncating or inserting
when the snapshot table is empty or when no minute bucket yields a
positive total, leaving the existing cache rows unchanged; and a run
truncates only when it also inserts at least one new row. -/
theorem update_cache_frame :
    (∀ (snaps : List SnapshotRow) (nowT : Int) (oldCache : List (Int × ℚ)) (txOk : Bool),
        (snaps = [] ∨ cachePoints snaps nowT = []) →
          updateCache snaps nowT oldCache txOk = ⟨oldCache, false, true⟩) ∧
      (∀ (snaps : List SnapshotRow) (nowT : Int) (oldCache : List (Int × ℚ)) (txOk : Bool),
        (updateCache snaps nowT oldCache txOk).truncated = true →
          cachePoints snaps nowT ≠ [] ∧
            (updateCache snaps nowT oldCache txOk).cache = cachePoints snaps nowT) := by
  constructor
  · intro snaps nowT oldCache txOk h
    rcases h with h | h
    · simp [updateCache, h]
    · unfold updateCache
      rcases snaps with _ | ⟨s, rest⟩
      · simp
      · simp [h]
  · intro snaps nowT oldCache txOk h
    unfold updateCache at h ⊢
    rcases snaps with _ | ⟨s, rest⟩
    · simp at h
    · by_cases hp : cachePoints (s :: rest) nowT = []
      · simp [hp] at h
      · cases txOk with
        | false => simp [hp] at h
        | true => simp [hp]

/-- Witness for update_cache_frame on an empty snapshot table. -/
theorem update_cache_frame_witness :
    updateCache [] 0 [((0 : Int), (5 : ℚ))] true = ⟨[((0 : Int), (5 : ℚ))], false, true⟩ :=
  update_cache_frame.1 [] 0 [((0 : Int), (5 : ℚ))] true (Or.inl rfl)

/-- The admission test of evaluate_type, as a boolean predicate. -/
def admitsCandidate (r : BacktestResult) : Bool :=
  decide (10 < r.totalTrades) && decide (0 < r.totalReturnPct)

/-- Folding evaluate_type over the optimizer outcomes appends exactly the
results that pass the admission test. -/
theorem collectCandidates_eq_filter_aux (results : List (Option BacktestResult))
    (acc : List BacktestResult) :
    results.foldl (fun acc r => evaluateType r acc) acc =
      acc ++ (results.filterMap id).filter admitsCandidate := by
  induction results generalizing acc with
  | nil => simp
  | cons r rest ih =>
    cases r with
    | none =>
      rw [List.foldl_cons]
      have h0 : evaluateType none acc = acc := rfl
      simpa [h0] using ih acc
    | some res =>
      by_cases h : 10 < res.totalTrades ∧ 0 < res.totalReturnPct
      · have hb : admitsCandidate res = true := by
          simp [admitsCandidate, h.1, h.2]
        rw [List.foldl_cons]
        have h0 : evaluateType (some res) acc = acc ++ [res] := by
          simp [evaluateType, h]
        simpa [h0, hb, List.append_assoc] using ih (acc ++ [res])
      · have hb : admitsCandidate res = false := by
          simp only [admitsCandidate, Bool.and_eq_false_iff, decide_eq_false_iff_not]
          by_cases h1 : 10 < res.totalTrades
          · exact Or.inr fun h2 => h ⟨h1, h2⟩
          · exact Or.inl h1
        rw [List.foldl_cons]
        have h0 : evaluateType (some res) acc = acc := by
          simp [evaluateType, h]
        simpa [h0, hb] using ih acc

/-- Inserting into a sharpe-sorted list adds exactly one element. -/
theorem insertDesc_length (r : BacktestResult) (l : List BacktestResult) :
    (insertDesc r l).length = l.length + 1 := by
  induction l with
  | nil => rfl
  | cons x xs ih =>
    by_cases h : x.sharpe ≤ r.sharpe <;> simp [insertDesc, h, ih]

/-- Sorting by descending sharpe preserves the number of candidates. -/
theorem sortBySharpeDesc_length (l : List BacktestResult) :
    (sortBySharpeDesc l).length = l.length := by
  induction l with
  | nil => rfl
  | cons x xs ih =>
    simp only [sortBySharpeDesc, List.foldr_cons] at ih ⊢
    rw [insertDesc_length, ih]
    simp

/-- C6: in a generator run where every insert succeeds, a candidate is
admitted exactly when its backtest result exists and has more than 10
trades and a positive total return, and the number of strategy rows
inserted and returned equals the minimum of top_n and the number of
admitted candidates. -/
theorem generator_insert_count (results : List (Option BacktestResult)) (topN : Nat) :
    collectCandidates results = (results.filterMap id).filter admitsCandidate ∧
      (∀ r : BacktestResult,
        admitsCandidate r = true ↔ (10 < r.totalTrades ∧ 0 < r.totalReturnPct)) ∧
      generateAndSave results topN =
        min topN ((results.filterMap id).filter admitsCandidate).length := by
  refine ⟨?_, ?_, ?_⟩
  · simpa using collectCandidates_eq_filter_aux results []
  · intro r
    simp [admitsCandidate]
  · unfold generateAndSave
    rw [List.length_take, sortBySharpeDesc_length]
    have hc : collectCandidates results = (results.filterMap id).filter admitsCandidate := by
      simpa using collectCandidates_eq_filter_aux results []
    rw [hc]

/-- Taking elements with a unit step keeps the whole list. -/
theorem stepByCount_one (xs : List ℚ) : stepByCount 1 0 xs = xs := by
  induction xs with
  | nil => rfl
  | cons x t ih => simp [stepByCount, ih]

/-- Length of the step_by iterator output: the number of kept indices,
starting with a skip budget c below step. -/
theorem stepByCount_length (step : Nat) (hstep : 1 ≤ step) :
    ∀ (xs : List ℚ) (c : Nat), c ≤ step - 1 →
      (stepByCount step c xs).length = (xs.length + (step - 1) - c) / step := by
  intro xs
  induction xs with
  | nil =>
    intro c hc
    simp only [stepByCount, List.length_nil]
    exact (Nat.div_eq_of_lt (by omega)).symm
  | cons x t ih =>
    intro c hc
    cases c with
    | zero =>
      have hrec := ih (step - 1) (le_refl _)
      simp only [stepByCount, List.length_cons, hrec]
      have he : t.length + (step - 1) - (step - 1) = t.length := by omega
      have he2 : t.length + 1 + (step - 1) - 0 = t.length + step := by omega
      rw [he, he2, Nat.add_div_right _ (by omega)]
    | succ c' =>
      have hrec := ih c' (by omega)
      simp only [stepByCount, List.length_cons, hrec]
      congr 1
      omega

/-- A curve of fewer than 100 points is kept whole by the downsampler,
because the integer step max(len / 50, 1) degenerates to 1. -/
theorem downsample_keeps_short (curve : List ℚ) (h : curve.length ≤ 99) :
    downsampleCurve curve = curve := by
  have hstep : max (curve.length / 50) 1 = 1 := by
    have h1 : curve.length / 50 ≤ 1 := by omega
    omega
  simp only [downsampleCurve]
  rw [hstep, stepByCount_one]
  cases hg : curve.getLast? with
  | none => simp
  | some v => simp

/-- An equity curve with 52 points, all equal. -/
def curve52 : List ℚ := List.replicate 52 1

/-- C5 fails on the code: for an equity curve of length 52 the step is
max(52 / 50, 1) = 1, so the stored curve keeps all 52 points, more than
the claimed bound of 51. -/
theorem downsample_over_51_cex : ¬ ((downsampleCurve curve52).length ≤ 51) := by
  have h : downsampleCurve curve52 = curve52 :=
    downsample_keeps_short curve52 (by simp [curve52])
  rw [h]
  simp [curve52]

/-- C5 amended: the stored backtest curve contains at most 99 points for
every input equity-curve length; the bound 51 holds only for curves of at
most 51 points, because step = max(len / 50, 1) stays 1 for every length
up to 99. -/
theorem downsample_le_99 (curve : List ℚ) : (downsampleCurve curve).length ≤ 99 := by
  by_cases h : curve.length ≤ 99
  · rw [downsample_keeps_short curve h]
    exact h
  · push_neg at h
    have hs2 : 2 ≤ curve.length / 50 := by omega
    have hmax : max (curve.length / 50) 1 = curve.length / 50 :=
      max_eq_left (by omega)
    have hlen := stepByCount_length (curve.length / 50) (by omega) curve 0 (by omega)
    have hbound : (stepByCount (max (curve.length / 50) 1) 0 curve).length ≤ 75 := by
      rw [hmax, hlen]
      set s := curve.length / 50 with hs
      have hmod : curve.length % 50 < 50 := Nat.mod_lt _ (by norm_num)
      have hdm : 50 * s + curve.length % 50 = curve.length := Nat.div_add_mod curve.length 50
      by_contra hc
      push_neg at hc
      have h76 : 76 ≤ (curve.length + (s - 1) - 0) / s := hc
      have h2 : 76 * s ≤ ((curve.length + (s - 1) - 0) / s) * s :=
        Nat.mul_le_mul_right s h76
      have h3 : ((curve.length + (s - 1) - 0) / s) * s ≤ curve.length + (s - 1) - 0 :=
        Nat.div_mul_le_self _ _
      omega
    simp only [downsampleCurve]
    cases hg : curve.getLast? with
    | none =>
      simp only [hg]
      exact le_trans hbound (by norm_num)
    | some v =>
      simp only [hg]
      by_cases hne : (stepByCount (max (curve.length / 50) 1) 0 curve).getLast? ≠ some v
      · rw [if_pos hne, List.length_append]
        simp only [List.length_singleton]
        omega
      · rw [if_neg hne]
        exact le_trans hbound (by norm_num)

/-- For a session holding a unit long or short position with entry price
and entry equity set, the settlement formula of the code equals the
specified mark-to-market expression, the sign being the position itself. -/
theorem settledEquity_spec (session : Session) (price ep ee : ℚ)
    (hpos : session.currentPosition = 1 ∨ session.currentPosition = -1)
    (hep : session.entryPrice = some ep) (hee : session.entryEquity = some ee) :
    settledEquity session price =
      ee * (1 + session.currentPosition * (price - ep) / ep) := by
  unfold settledEquity
  rw [hep, hee]
  rcases hpos with h | h <;> rw [h] <;> norm_num

/-- When the guard passes and the persist condition holds, update_equity_mtm
returns Ok and rewrites exactly the equity and last_update columns of the
session row, inside its transaction. -/
theorem updateEquityMtm_persist (db : Db) (session : Session) (price : ℚ)
    (tracker : Tracker) (force : Bool) (now : Time)
    (hguard : ¬ (|session.currentPosition| < f64Epsilon ∨ session.entryPrice = none))
    (hcond : force = true ∨
      (1 / 1000000 < |settledEquity session price - session.currentEquity| ∧
        500 ≤ now - session.lastUpdate)) :
    (updateEquityMtm db session price tracker force now none).ok = true ∧
      (updateEquityMtm db session price tracker force now none).db.sessions =
        updateRows db.sessions session.id fun s =>
          { s with currentEquity := settledEquity session price, lastUpdate := now } := by
  unfold updateEquityMtm
  rw [if_neg hguard, if_pos hcond]
  cases hA : allowSnapshotFlag tracker session.id now force <;>
    simp [runTx, mtmOps, hA, applyOp]

/-- C1: for a session with a nonzero (unit) position and entry price set,
a kline event recomputes the mark-to-market equity as entry_equity times
one plus sign(position) times the relative price move from the entry
price (the sign of a unit position being the position itself), and this
value is persisted to the session row exactly when the event is forced as
a final bar, or the equity moved by more than 1e-6 and last_update is at
least 500 ms old. -/
theorem mtm_formula_and_persist (db : Db) (session : Session) (price : ℚ)
    (tracker : Tracker) (force : Bool) (now : Time) (ep ee : ℚ)
    (hpos : session.currentPosition = 1 ∨ session.currentPosition = -1)
    (hep : session.entryPrice = some ep) (hee : session.entryEquity = some ee) :
    (updateEquityMtm db session price tracker force now none).ok = true ∧
      ((force = true ∨
          (1 / 1000000 < |ee * (1 + session.currentPosition * (price - ep) / ep)
              - session.currentEquity| ∧ 500 ≤ now - session.lastUpdate)) →
        findSession (updateEquityMtm db session price tracker force now none).db.sessions
            session.id =
          (findSession db.sessions session.id).map fun s =>
            { s with
                currentEquity := ee * (1 + session.currentPosition * (price - ep) / ep),
                lastUpdate := now }) ∧
      (¬ (force = true ∨
          (1 / 1000000 < |ee * (1 + session.currentPosition * (price - ep) / ep)
              - session.currentEquity| ∧ 500 ≤ now - session.lastUpdate)) →
        updateEquityMtm db session price tracker force now none = ⟨db, tracker, true⟩) := by
  have hmtm := settledEquity_spec session price ep ee hpos hep hee
  have hguard : ¬ (|session.currentPosition| < f64Epsilon ∨ session.entryPrice = none) := by
    rw [hep]
    rcases hpos with h | h <;> rw [h] <;> norm_num [f64Epsilon] <;> simp
  refine ⟨?_, ?_, ?_⟩
  · by_cases hcond : force = true ∨
        (1 / 1000000 < |settledEquity session price - session.currentEquity| ∧
          500 ≤ now - session.lastUpdate)
    · exact (updateEquityMtm_persist db session price tracker force now hguard hcond).1
    · unfold updateEquityMtm
      rw [if_neg hguard, if_neg hcond]
  · intro hP
    have hcond : force = true ∨
        (1 / 1000000 < |settledEquity session price - session.currentEquity| ∧
          500 ≤ now - session.lastUpdate) := by
      rw [hmtm]
      exact hP
    have h2 := (updateEquityMtm_persist db session price tracker force now hguard hcond).2
    rw [h2, ← hmtm]
    exact findSession_updateRows db.sessions session.id _ (fun s => rfl)
  · intro hP
    have hcond : ¬ (force = true ∨
        (1 / 1000000 < |settledEquity session price - session.currentEquity| ∧
          500 ≤ now - session.lastUpdate)) := by
      rw [hmtm]
      exact hP
    unfold updateEquityMtm
    rw [if_neg hguard, if_neg hcond]

/-- A concrete long session for the C1 witness. -/
def mtmSession : Session := ⟨5, "BTCUSDT", 1000, some 1000, 1, some 100, "sync", 0⟩

/-- The database holding only mtmSession. -/
def mtmDb : Db := ⟨[mtmSession], [], []⟩

/-- Witness for mtm_formula_and_persist at a concrete forced event. -/
theorem mtm_formula_and_persist_witness :
    (mtmSession.currentPosition = 1 ∨ mtmSession.currentPosition = -1) ∧
      mtmSession.entryPrice = some 100 ∧ mtmSession.entryEquity = some 1000 ∧
      ((updateEquityMtm mtmDb mtmSession 110 [] true 600 none).ok = true ∧
        ((true = true ∨
            (1 / 1000000 < |(1000 : ℚ) * (1 + mtmSession.currentPosition * (110 - 100) / 100)
                - mtmSession.currentEquity| ∧ 500 ≤ 600 - mtmSession.lastUpdate)) →
          findSession (updateEquityMtm mtmDb mtmSession 110 [] true 600 none).db.sessions
              mtmSession.id =
            (findSession mtmDb.sessions mtmSession.id).map fun s =>
              { s with
                  currentEquity := (1000 : ℚ) * (1 + mtmSession.currentPosition * (110 - 100) / 100),
                  lastUpdate := 600 }) ∧
        (¬ (true = true ∨
            (1 / 1000000 < |(1000 : ℚ) * (1 + mtmSession.currentPosition * (110 - 100) / 100)
                - mtmSession.currentEquity| ∧ 500 ≤ 600 - mtmSession.lastUpdate)) →
          updateEquityMtm mtmDb mtmSession 110 [] true 600 none = ⟨mtmDb, [], true⟩)) :=
  ⟨Or.inl rfl, rfl, rfl,
    mtm_formula_and_persist mtmDb mtmSession 110 [] true 600 100 1000 (Or.inl rfl) rfl rfl⟩

/-- C2: within a single execute_paper_trade call whose signal differs from
the position by at least 0.1, the closing trade insert (when the position
is nonzero), the opening trade insert (when the target signal is nonzero),
the session row update and the equity snapshot insert all happen in one
transaction: on success all four effects are visible together, and a
database error on any statement rolls everything back, leaving no partial
trades, session update or snapshot. -/
theorem paper_trade_atomicity (db : Db) (session : Session) (signal price : ℚ)
    (reason : String) (tracker : Tracker) (now : Time) (failAt : Option Nat)
    (hd : 1 / 10 ≤ |signal - session.currentPosition|) :
    ((executePaperTrade db session signal price reason tracker now failAt).ok = false →
        executePaperTrade db session signal price reason tracker now failAt =
          ⟨db, tracker, false⟩) ∧
      ((executePaperTrade db session signal price reason tracker now failAt).ok = true →
        (executePaperTrade db session signal price reason tracker now failAt).db.trades =
            db.trades ++
              (if 0 < |session.currentPosition| then
                [⟨session.id, session.symbol, closeSide session, price, 0,
                   closePnl session price, reason⟩]
               else []) ++
              (if 0 < |signal| then
                [⟨session.id, session.symbol, openSide signal, price, 0, 0, reason⟩]
               else []) ∧
          findSession
              (executePaperTrade db session signal price reason tracker now failAt).db.sessions
              session.id =
            (findSession db.sessions session.id).map (fun s =>
              { s with currentEquity := paperTradeNewEquity session price,
                       currentPosition := signal,
                       entryPrice := if 0 < |signal| then some price else none,
                       entryEquity :=
                         if 0 < |signal| then some (paperTradeNewEquity session price) else none,
                       lastUpdate := now }) ∧
          (executePaperTrade db session signal price reason tracker now failAt).db.snapshots =
            db.snapshots ++ [⟨session.id, paperTradeNewEquity session price, now⟩] ∧
          (executePaperTrade db session signal price reason tracker now failAt).tracker =
            trackerInsert tracker session.id now) := by
  have hlt : ¬ (|signal - session.currentPosition| < 1 / 10) := not_lt.mpr hd
  unfold executePaperTrade
  rw [if_neg hlt]
  rcases runTx_cases failAt (paperTradeOps session signal price reason now) db with h | h <;>
    rw [h]
  · constructor
    · intro hfalse
      simp at hfalse
    · intro _
      refine ⟨paperTradeOps_trades db session signal price reason now, ?_,
        paperTradeOps_snapshots db session signal price reason now, rfl⟩
      rw [paperTradeOps_sessions]
      exact findSession_updateRows db.sessions session.id _ (fun s => rfl)
  · constructor
    · intro _
      rfl
    · intro htrue
      simp at htrue

/-- A concrete open long session for the C2 witness. -/
def atomSession : Session := ⟨3, "ETHUSDT", 1000, some 1000, 1, some 100, "sync", 0⟩

/-- The database holding only atomSession. -/
def atomDb : Db := ⟨[atomSession], [], []⟩

/-- Witness for paper_trade_atomicity: closing the long at 110 with an
injected failure on the first statement rolls everything back. -/
theorem paper_trade_atomicity_witness :
    (1 / 10 ≤ |(0 : ℚ) - atomSession.currentPosition|) ∧
      ((executePaperTrade atomDb atomSession 0 110 "close" [] 7 (some 0)).ok = false →
        executePaperTrade atomDb atomSession 0 110 "close" [] 7 (some 0) =
          ⟨atomDb, [], false⟩) :=
  ⟨by norm_num [atomSession],
    (paper_trade_atomicity atomDb atomSession 0 110 "close" [] 7 (some 0)
      (by norm_num [atomSession])).1⟩

/-- The invariant of the session data model: a nonzero position exactly
when both entry columns are set. -/
def entryInvariant (s : Session) : Prop :=
  s.currentPosition ≠ 0 ↔ (s.entryPrice ≠ none ∧ s.entryEquity ≠ none)

/-- C3: every state transition execute_paper_trade performs preserves the
invariant that the position is nonzero exactly when entry_price and
entry_equity are both set; on the trading path the entry columns are set
to non-null values exactly when the target signal is nonzero, and the new
position is the target signal. -/
theorem paper_trade_entry_invariant (db : Db) (session : Session) (signal price : ℚ)
    (reason : String) (tracker : Tracker) (now : Time) (failAt : Option Nat)
    (hsess : findSession db.sessions session.id = some session)
    (hinv : entryInvariant session)
    (hok : (executePaperTrade db session signal price reason tracker now failAt).ok = true) :
    ∀ s2,
      findSession
          (executePaperTrade db session signal price reason tracker now failAt).db.sessions
          session.id = some s2 →
        entryInvariant s2 ∧
          (1 / 10 ≤ |signal - session.currentPosition| →
            (s2.entryPrice ≠ none ↔ signal ≠ 0) ∧
              (s2.entryEquity ≠ none ↔ signal ≠ 0) ∧
              s2.currentPosition = signal) := by
  intro s2 hs2
  by_cases hlt : |signal - session.currentPosition| < 1 / 10
  · have hvac : ¬ (1 / 10 ≤ |signal - session.currentPosition|) := not_le.mpr hlt
    have heq : executePaperTrade db session signal price reason tracker now failAt =
        updateEquityMtm db session price tracker false now failAt := by
      unfold executePaperTrade
      rw [if_pos hlt]
    rw [heq] at hs2
    rcases updateEquityMtm_sessions db session price tracker false now failAt with h | h
    · rw [h, hsess] at hs2
      cases hs2
      exact ⟨hinv, fun hc => absurd hc hvac⟩
    · rw [h, findSession_updateRows db.sessions session.id
          (fun s => { s with currentEquity := settledEquity session price, lastUpdate := now })
          (fun s => rfl), hsess] at hs2
      cases hs2
      refine ⟨?_, fun hc => absurd hc hvac⟩
      simpa [entryInvariant] using hinv
  · have heq' : ¬ (|signal - session.currentPosition| < 1 / 10) := hlt
    unfold executePaperTrade at hs2 hok
    rw [if_neg heq'] at hs2 hok
    rcases runTx_cases failAt (paperTradeOps session signal price reason now) db with h | h
    · rw [h] at hs2
      rw [paperTradeOps_sessions,
        findSession_updateRows db.sessions session.id
          (fun s =>
            { s with currentEquity := paperTradeNewEquity session price,
                     currentPosition := signal,
                     entryPrice := if 0 < |signal| then some price else none,
                     entryEquity :=
                       if 0 < |signal| then some (paperTradeNewEquity session price) else none,
                     lastUpdate := now })
          (fun s => rfl), hsess] at hs2
      cases hs2
      constructor
      · by_cases hz : 0 < |signal|
        · simp [entryInvariant, hz, abs_pos.mp hz]
        · have h0 : signal = 0 := by
            have := abs_nonneg signal
            have h0' : |signal| = 0 := le_antisymm (not_lt.mp hz) this
            exact abs_eq_zero.mp h0'
          simp [entryInvariant, hz, h0]
      · intro _
        by_cases hz : 0 < |signal|
        · simp [hz, abs_pos.mp hz]
        · have h0 : signal = 0 := by
            have := abs_nonneg signal
            have h0' : |signal| = 0 := le_antisymm (not_lt.mp hz) this
            exact abs_eq_zero.mp h0'
          simp [hz, h0]
    · rw [h] at hok
      simp at hok

/-- Witness for paper_trade_entry_invariant: closing the concrete long
position with target signal 0 nulls both entry columns. -/
theorem paper_trade_entry_invariant_witness :
    findSession atomDb.sessions atomSession.id = some atomSession ∧
      entryInvariant atomSession ∧
      (executePaperTrade atomDb atomSession 0 110 "close" [] 600 none).ok = true ∧
      (∀ s2,
        findSession
            (executePaperTrade atomDb atomSession 0 110 "close" [] 600 none).db.sessions
            atomSession.id = some s2 →
          entryInvariant s2 ∧
            (1 / 10 ≤ |(0 : ℚ) - atomSession.currentPosition| →
              (s2.entryPrice ≠ none ↔ (0 : ℚ) ≠ 0) ∧
                (s2.entryEquity ≠ none ↔ (0 : ℚ) ≠ 0) ∧
                s2.currentPosition = 0)) :=
  ⟨rfl, by simp [entryInvariant, atomSession],
    by norm_num [executePaperTrade, runTx, atomSession],
    paper_trade_entry_invariant atomDb atomSession 0 110 "close" [] 600 none rfl
      (by simp [entryInvariant, atomSession])
      (by norm_num [executePaperTrade, runTx, atomSession])⟩

/-- The session of the S4 flip scenario: long from 100 with equity 1000. -/
def flipSession : Session := ⟨0, "BTCUSDT", 1000, some 1000, 1, some 100, "sync", 0⟩

/-- The database holding only flipSession. -/
def flipDb : Db := ⟨[flipSession], [], []⟩

/-- C8 fails on the code: flipping the long to short at 90 does not
produce the claimed trade pair SELL then BUY, because the opening leg of
a short position inserts side SELL. -/
theorem flip_scenario_cex :
    ¬ ((executePaperTrade flipDb flipSession (-1) 90 "flip" [] 0 none).db.trades =
      [⟨0, "BTCUSDT", "SELL", 90, 0, -100, "flip"⟩,
       ⟨0, "BTCUSDT", "BUY", 90, 0, 0, "flip"⟩]) := by
  intro h
  norm_num [executePaperTrade, runTx, paperTradeOps, applyOp, settledEquity, closePnl,
    paperTradeNewEquity, closeSide, openSide, flipDb, flipSession] at h
  exact absurd h (by decide)

/-- C8 amended: the flip produces exactly two trades in order, SELL at 90
with pnl -100 closing the long, then SELL at 90 with pnl 0 opening the
short, and leaves the session with equity 900, position -1, entry price
90 and entry equity 900. -/
theorem flip_scenario_trades :
    (executePaperTrade flipDb flipSession (-1) 90 "flip" [] 0 none).ok = true ∧
      (executePaperTrade flipDb flipSession (-1) 90 "flip" [] 0 none).db.trades =
        [⟨0, "BTCUSDT", "SELL", 90, 0, -100, "flip"⟩,
         ⟨0, "BTCUSDT", "SELL", 90, 0, 0, "flip"⟩] ∧
      (executePaperTrade flipDb flipSession (-1) 90 "flip" [] 0 none).db.sessions =
        [⟨0, "BTCUSDT", 900, some 900, -1, some 90, "sync", 0⟩] ∧
      (executePaperTrade flipDb flipSession (-1) 90 "flip" [] 0 none).db.snapshots =
        [⟨0, 900, 0⟩] := by
  norm_num [executePaperTrade, runTx, paperTradeOps, applyOp, updateRows, settledEquity,
    closePnl, paperTradeNewEquity, closeSide, openSide, flipDb, flipSession]

/-- One iteration of the update_cache walk: consume due snapshots and
advance the minute. -/
def walkStep (st : List SnapshotRow × Equities × Int) :
    List SnapshotRow × Equities × Int :=
  let step := consumeSnaps st.2.2 st.1 st.2.1
  (step.1, step.2, st.2.2 + 60)

/-- The loop state after one more minute is one walkStep further. -/
theorem walkState_succ (n : Nat) :
    ∀ (snaps : List SnapshotRow) (m : Equities) (curr : Int),
      walkState snaps m curr (n + 1) = walkStep (walkState snaps m curr n) := by
  induction n with
  | zero =>
    intro snaps m curr
    rfl
  | succ k ih =>
    intro snaps m curr
    show walkState (consumeSnaps curr snaps m).1 (consumeSnaps curr snaps m).2
        (curr + 60) (k + 1) = _
    rw [ih]
    rfl

/-- Walking one more minute appends the points emitted from the final
loop state. -/
theorem walkLoop_succ (n : Nat) :
    ∀ (snaps : List SnapshotRow) (m : Equities) (curr : Int),
      walkLoop snaps m curr (n + 1) =
        walkLoop snaps m curr n ++ emitStep (walkState snaps m curr n) := by
  induction n with
  | zero =>
    intro snaps m curr
    simp [walkLoop, walkState, emitStep]
  | succ k ih =>
    intro snaps m curr
    have h1 : walkLoop snaps m curr (k + 1 + 1) =
        (if 0 < eqTotal (consumeSnaps curr snaps m).2 then
          [(curr, eqTotal (consumeSnaps curr snaps m).2)] else []) ++
          walkLoop (consumeSnaps curr snaps m).1 (consumeSnaps curr snaps m).2
            (curr + 60) (k + 1) := rfl
    have h2 : walkLoop snaps m curr (k + 1) =
        (if 0 < eqTotal (consumeSnaps curr snaps m).2 then
          [(curr, eqTotal (consumeSnaps curr snaps m).2)] else []) ++
          walkLoop (consumeSnaps curr snaps m).1 (consumeSnaps curr snaps m).2
            (curr + 60) k := rfl
    have h3 : walkState snaps m curr (k + 1) =
        walkState (consumeSnaps curr snaps m).1 (consumeSnaps curr snaps m).2
          (curr + 60) k := rfl
    rw [h1, ih, h2, h3, List.append_assoc]

/-- The snapshots of the S6 aggregation scenario: session A at 100 on the
minute t0 = 0, session B at 50 two minutes later, session A overwritten
to 120 three minutes later (timestamps in seconds). -/
def scenarioSnaps : List SnapshotRow := [⟨0, 100, 0⟩, ⟨1, 50, 120⟩, ⟨0, 120, 180⟩]

/-- After the first four minutes of the scenario every snapshot is
consumed and the map holds A at 120 and B at 50. -/
theorem scenario_state (k : Nat) :
    walkState scenarioSnaps [] 0 (4 + k) =
      ([], [(0, 120), (1, 50)], 240 + 60 * (k : Int)) := by
  induction k with
  | zero =>
    show walkState scenarioSnaps [] 0 4 = ([], [(0, 120), (1, 50)], 240 + 60 * ((0 : Nat) : Int))
    norm_num
    rfl
  | succ j ih =>
    have h : 4 + (j + 1) = (4 + j) + 1 := by omega
    rw [h, walkState_succ, ih]
    simp only [walkStep, consumeSnaps, Prod.mk.injEq]
    refine ⟨trivial, trivial, ?_⟩
    push_cast
    ring

/-- The points emitted by the scenario walk: 100 at minute 0 and 1, 150
at minute 2, and 170 from minute 3 on, forward-filled. -/
theorem scenario_walk (k : Nat) :
    walkLoop scenarioSnaps [] 0 (4 + k) =
      [((0 : Int), (100 : ℚ)), (60, 100), (120, 150)] ++
        (List.range (k + 1)).map
          (fun i : Nat => ((180 + 60 * (i : Int) : Int), (170 : ℚ))) := by
  induction k with
  | zero =>
    have h4 : (4 : Nat) + 0 = 3 + 1 := rfl
    have h3 : (3 : Nat) = 2 + 1 := rfl
    have h2 : (2 : Nat) = 1 + 1 := rfl
    have h1 : (1 : Nat) = 0 + 1 := rfl
    have hs0 : walkState scenarioSnaps [] 0 0 = (scenarioSnaps, [], 0) := rfl
    have hs1 : walkState scenarioSnaps [] 0 1 =
        ([⟨1, 50, 120⟩, ⟨0, 120, 180⟩], [(0, 100)], 60) := rfl
    have hs2 : walkState scenarioSnaps [] 0 2 =
        ([⟨1, 50, 120⟩, ⟨0, 120, 180⟩], [(0, 100)], 120) := rfl
    have hs3 : walkState scenarioSnaps [] 0 3 =
        ([⟨0, 120, 180⟩], [(0, 100), (1, 50)], 180) := rfl
    have he0 : emitStep (scenarioSnaps, ([] : Equities), (0 : Int)) = [(0, 100)] := by
      norm_num [emitStep, consumeSnaps, eqInsert, eqTotal, scenarioSnaps]
    have he1 : emitStep (([⟨1, 50, 120⟩, ⟨0, 120, 180⟩] : List SnapshotRow),
        ([(0, 100)] : Equities), (60 : Int)) = [(60, 100)] := by
      norm_num [emitStep, consumeSnaps, eqInsert, eqTotal]
    have he2 : emitStep (([⟨1, 50, 120⟩, ⟨0, 120, 180⟩] : List SnapshotRow),
        ([(0, 100)] : Equities), (120 : Int)) = [(120, 150)] := by
      norm_num [emitStep, consumeSnaps, eqInsert, eqTotal]
    have he3 : emitStep (([⟨0, 120, 180⟩] : List SnapshotRow),
        ([(0, 100), (1, 50)] : Equities), (180 : Int)) = [(180, 170)] := by
      norm_num [emitStep, consumeSnaps, eqInsert, eqTotal]
    rw [h4, walkLoop_succ, hs3, he3]
    rw [h3, walkLoop_succ, hs2, he2]
    rw [h2, walkLoop_succ, hs1, he1]
    rw [h1, walkLoop_succ, hs0, he0]
    norm_num [walkLoop, List.range_succ]
  | succ j ih =>
    have h : 4 + (j + 1) = (4 + j) + 1 := by omega
    rw [h, walkLoop_succ, ih, scenario_state]
    have he : emitStep (([] : List SnapshotRow), ([(0, 120), (1, 50)] : Equities),
        (240 + 60 * (j : Int))) = [((240 + 60 * (j : Int)), (170 : ℚ))] := by
      norm_num [emitStep, consumeSnaps, eqTotal]
    rw [he]
    rw [List.range_succ (j + 1), List.map_append]
    simp only [List.map_cons, List.map_nil]
    have hp : ((180 + 60 * (((j + 1) : Nat) : Int)), (170 : ℚ)) =
        ((240 + 60 * (j : Int)), (170 : ℚ)) := by
      have : (180 + 60 * (((j + 1) : Nat) : Int)) = (240 + 60 * (j : Int)) := by
        push_cast
        ring
      rw [this]
    rw [hp, List.append_assoc]

/-- C7: the portfolio aggregation walks minute by minute from the first
snapshot's minute up to now, at each minute consuming every snapshot with
timestamp at most the current minute into a session-to-equity map with
later snapshots overwriting earlier ones, and emits the sum exactly when
positive; on the S6 snapshots A:(t0,100), B:(t0+2min,50), A:(t0+3min,120)
the emitted totals are 100 at t0 and t0+1min, 150 at t0+2min, 170 at
t0+3min and forward-filled 170 for every later minute up to now. -/
theorem portfolio_forward_fill_scenario (k : Nat) :
    cachePoints scenarioSnaps (180 + 60 * (k : Int)) =
      [((0 : Int), (100 : ℚ)), (60, 100), (120, 150)] ++
        (List.range (k + 1)).map
          (fun i : Nat => ((180 + 60 * (i : Int) : Int), (170 : ℚ))) := by
  have htr : truncMinute 0 = 0 := rfl
  show walkLoop scenarioSnaps [] (truncMinute 0)
      (if truncMinute 0 ≤ 180 + 60 * (k : Int) then
        (((180 + 60 * (k : Int)) - truncMinute 0) / 60).toNat + 1 else 0) = _
  rw [htr]
  rw [if_pos (by positivity : (0 : Int) ≤ 180 + 60 * (k : Int))]
  rw [show (((180 + 60 * (k : Int)) - 0) / 60).toNat + 1 = 4 + k from by omega]
  exact scenario_walk k
